import Mathlib

/-
Verification of the schema-normalization and status-classification pipeline
of weeklyupdate.py (Program Executive Scorecard).

Shallow embedding conventions:
  * Cell values and health/risk texts are `Option String`; `none` stands for
    the Python `None` / float NaN case that the code checks first.
  * Python `str.strip` / `str.lower` are embedded as `strTrim` / `strLower`,
    written over `List Char` so that every definition reduces in the kernel.
  * Python `pat in text` is embedded as `containsStr text pat`.
  * A pandas DataFrame is a list of named columns (`Table`); column selection
    `df[ordered]` follows the pandas indexer semantics: each name in the
    selector picks out every column bearing that label, in order.
  * Dates are day numbers (`Int`), already normalized to midnight, since the
    code compares midnight-normalized timestamps and takes whole-day deltas.
-/

/-! ## String helpers (embedding of the Python primitives) -/

/-- Drop leading whitespace characters from a character list. -/
def dropLeadingWS : List Char → List Char
  | [] => []
  | c :: cs => if c.isWhitespace then dropLeadingWS cs else c :: cs

/-- Embedding of Python `str.strip`: remove leading and trailing whitespace. -/
def strTrim (s : String) : String :=
  ⟨((dropLeadingWS ((dropLeadingWS s.data).reverse)).reverse)⟩

/-- Embedding of Python `str.lower` (ASCII case folding). -/
def strLower (s : String) : String :=
  ⟨s.data.map Char.toLower⟩

/-- Does the pattern occur at the head of the character list? -/
def charsLead : List Char → List Char → Bool
  | [], _ => true
  | _ :: _, [] => false
  | p :: ps, c :: cs => p == c && charsLead ps cs

/-- Does the pattern occur anywhere in the character list? -/
def charsContain (pat : List Char) : List Char → Bool
  | [] => pat.isEmpty
  | c :: cs => charsLead pat (c :: cs) || charsContain pat cs

/-- Embedding of Python `pat in s` (substring test). -/
def containsStr (s pat : String) : Bool :=
  charsContain pat.data s.data

/-- Decimal value of a character for the decimal digit scripts this
development models: a finite fragment of the Unicode Nd class (ASCII,
Arabic-Indic, Extended Arabic-Indic, Devanagari). Python `str.isdigit`
accepts these characters and `int` parses them by this value; every concrete
digit input of the theorems below lies in this fragment. -/
def decimalVal? (c : Char) : Option Nat :=
  if 48 ≤ c.toNat ∧ c.toNat ≤ 57 then some (c.toNat - 48)
  else if 0x660 ≤ c.toNat ∧ c.toNat ≤ 0x669 then some (c.toNat - 0x660)
  else if 0x6F0 ≤ c.toNat ∧ c.toNat ≤ 0x6F9 then some (c.toNat - 0x6F0)
  else if 0x966 ≤ c.toNat ∧ c.toNat ≤ 0x96F then some (c.toNat - 0x966)
  else none

/-- Code points with the Unicode property Numeric_Type=Digit that are not
decimal digits (superscript and subscript digits): Python `str.isdigit`
accepts them but `int` raises ValueError on them. -/
def digitNoCodes : List Nat :=
  [0xB2, 0xB3, 0xB9, 0x2070, 0x2074, 0x2075, 0x2076, 0x2077, 0x2078, 0x2079,
   0x2080, 0x2081, 0x2082, 0x2083, 0x2084, 0x2085, 0x2086, 0x2087, 0x2088,
   0x2089]

/-- Per-character embedding of the class Python `str.isdigit` tests:
Numeric_Type=Decimal or Numeric_Type=Digit. -/
def pyIsDigitChar (c : Char) : Bool :=
  (decimalVal? c).isSome || digitNoCodes.contains c.toNat

/-- Embedding of Python `text.isdigit()`: nonempty and every character
digit-typed. -/
def pyIsDigitStr (t : String) : Bool :=
  !t.data.isEmpty && t.data.all pyIsDigitChar

/-- Base-10 value of an all-decimal string. -/
def decDigitsVal (t : String) : Nat :=
  t.data.foldl (fun n c => 10 * n + (decimalVal? c).getD 0) 0

/-- Embedding of `int(text)` as called under the `text.isdigit()` guard: it
succeeds exactly on nonempty all-decimal strings, yielding their base-10
value, and raises ValueError (here `none`) on digit-typed text containing a
non-decimal digit character such as a superscript. -/
def intParse? (t : String) : Option Nat :=
  if !t.data.isEmpty && t.data.all (fun c => (decimalVal? c).isSome)
  then some (decDigitsVal t) else none

/-! ## Status classifier (`categorize_health`, weeklyupdate.py lines 271-287) -/

/-- The trimmed, lower-cased text the classifier works on. -/
def healthText (s : String) : String := strLower (strTrim s)

/-- Exact membership in the green set of `categorize_health`. -/
def isGreenSet (t : String) : Bool := ["green", "on track", "good"].contains t

/-- Exact membership in the watch set of `categorize_health`. -/
def isWatchSet (t : String) : Bool :=
  ["yellow", "amber", "watch", "caution"].contains t

/-- Exact membership in the red set of `categorize_health`. -/
def isRedSet (t : String) : Bool :=
  ["red", "critical", "off track", "blocked"].contains t

/-- Substring rule for the On Hold bucket. -/
def holdMatch (t : String) : Bool := containsStr t "hold"

/-- Substring rule for the Complete bucket. -/
def completeMatch (t : String) : Bool :=
  containsStr t "complete" || containsStr t "done" || containsStr t "closed"

/-- Substring and equality rule for the Not Started bucket. -/
def notStartedMatch (t : String) : Bool :=
  containsStr t "not started" || t == "tbd"

/-- Embedding of `categorize_health` (weeklyupdate.py lines 271-287).
`none` stands for Python `None` or a float NaN value. -/
def categorize_health : Option String → String
  | none => "Unknown"
  | some v =>
    let text := healthText v
    if isGreenSet text then "On Track"
    else if isWatchSet text then "Watch"
    else if isRedSet text then "At Risk"
    else if holdMatch text then "On Hold"
    else if completeMatch text then "Complete"
    else if notStartedMatch text then "Not Started"
    else "Unknown"

/-- Disjunction of every rule of `categorize_health`; text matched by no rule
is exactly text with `healthRuleMatched = false`. -/
def healthRuleMatched (t : String) : Bool :=
  isGreenSet t || isWatchSet t || isRedSet t || holdMatch t ||
    completeMatch t || notStartedMatch t

/-- The fixed status enumeration (STATUS_ORDER of weeklyupdate.py). -/
def statusEnum : List String :=
  ["At Risk", "Watch", "On Hold", "Not Started", "On Track", "Complete",
    "Unknown"]

/-- Embedding of the portfolio call site (line 374):
`portfolio["Health Category"] = portfolio["Health"].map(categorize_health)`. -/
def healthCategoryColumn (vals : List (Option String)) : List String :=
  vals.map categorize_health

/-- Embedding of the milestone call site (line 380):
`milestones["Status Category"] = milestones["Status"].map(categorize_health)`. -/
def statusCategoryColumn (vals : List (Option String)) : List String :=
  vals.map categorize_health

/-! ## Risk scorer (`normalize_risk_level`, `risk_score`, lines 298-318) -/

/-- The trimmed, lower-cased text the risk-level rules work on. -/
def riskText (s : String) : String := strLower (strTrim s)

/-- Embedding of `normalize_risk_level` (weeklyupdate.py lines 298-314).
The function is fallible: when `text.isdigit()` holds, the code calls
`int(text)` unguarded, so digit-typed text that `int` cannot parse raises a
ValueError that propagates out; `Except.error` models that raise. -/
def normalize_risk_level : Option String → Except String String
  | none => Except.ok "Unknown"
  | some v =>
    let text := riskText v
    if pyIsDigitStr text then
      match intParse? text with
      | none => Except.error "ValueError"
      | some score =>
        if score ≤ 1 then Except.ok "Low"
        else if score = 2 then Except.ok "Medium"
        else Except.ok "High"
    else if containsStr text "low" then Except.ok "Low"
    else if containsStr text "medium" then Except.ok "Medium"
    else if containsStr text "high" then Except.ok "High"
    else if containsStr text "critical" || containsStr text "severe" then
      Except.ok "High"
    else Except.ok "Unknown"

/-- Specification-side reading of the risk-level contract: an ordered list of
rules, evaluated first-match-wins, with default `Unknown`. -/
def applyRiskRules : List (String → Option String) → String → String
  | [], _ => "Unknown"
  | r :: rs, t =>
    match r t with
    | some res => res
    | none => applyRiskRules rs t

/-- The rule list of section 4.3 of the specification, in its stated order:
integer-parseable digit string mapped by magnitude, then substrings
low / medium / high, then critical / severe; the specification demands a
total function, so text that is not integer-parseable falls to the later
rules. -/
def riskRulesList : List (String → Option String) :=
  [fun t => match intParse? t with
     | some score => some (if score ≤ 1 then "Low"
        else if score = 2 then "Medium" else "High")
     | none => none,
   fun t => if containsStr t "low" then some "Low" else none,
   fun t => if containsStr t "medium" then some "Medium" else none,
   fun t => if containsStr t "high" then some "High" else none,
   fun t => if containsStr t "critical" || containsStr t "severe" then
      some "High" else none]

/-- Rule-list reading of `riskLevel` following the words of the specification. -/
def normalize_risk_level_spec : Option String → String
  | none => "Unknown"
  | some v => applyRiskRules riskRulesList (riskText v)

/-- Embedding of RISK_LEVEL_MAP (weeklyupdate.py lines 76-82). -/
def RISK_LEVEL_MAP : List (String × Nat) :=
  [("low", 1), ("medium", 2), ("med", 2), ("high", 3), ("critical", 3)]

/-- Embedding of `risk_score` (line 317): `RISK_LEVEL_MAP.get(level.lower(), 0)`. -/
def risk_score (level : String) : Nat :=
  ((RISK_LEVEL_MAP.find? (fun e => e.1 == strLower level)).map (·.2)).getD 0

/-- Embedding of the Severity Score computation (line 384): the product of the
scores of the impact level and the probability level. -/
def severityScore (impact probability : String) : Nat :=
  risk_score impact * risk_score probability

/-! ## Tables and column normalization (lines 88-114 of weeklyupdate.py) -/

/-- A named column of a table; values are scalars, `none` standing for a
missing cell. -/
structure Col where
  name : String
  values : List (Option String)
  deriving DecidableEq

/-- A pandas DataFrame, embedded as its ordered list of named columns. -/
abbrev Table := List Col

/-- A canonical schema: ordered canonical column names, each with its
registered synonym list. -/
abbrev Schema := List (String × List String)

/-- The lower-cased registry keys contributed by one schema entry: the
canonical name itself and every alias, as `normalize_columns` registers them. -/
def keysOf (e : String × List String) : List String :=
  strLower e.1 :: e.2.map strLower

/-- The (key, canonical) pairs of the lookup dictionary built by
`normalize_columns`, in registration order. -/
def lookupPairs (schema : Schema) : List (String × String) :=
  schema.flatMap (fun e => (keysOf e).map (fun k => (k, e.1)))

/-- Dictionary lookup: the last registration of a key wins, as with Python
dict assignment. -/
def findCanon (schema : Schema) (key : String) : Option String :=
  ((lookupPairs schema).reverse.find? (fun p => p.1 == key)).map (·.2)

/-- The key a column name is looked up under:
`str(col).strip().lower()`. -/
def colKey (n : String) : String := strLower (strTrim n)

/-- New name of a column under the rename map of `normalize_columns`. -/
def renameName (schema : Schema) (n : String) : String :=
  match findCanon schema (colKey n) with
  | some c => c
  | none => n

/-- Embedding of `normalize_columns` (lines 88-100): rename every column
whose key is registered to its canonical name. -/
def normalize_columns (df : Table) (schema : Schema) : Table :=
  df.map (fun c => ⟨renameName schema c.name, c.values⟩)

/-- Row count of a table (length of the shared index; columns of one
DataFrame all have this length). -/
def nrowsT (df : Table) : Nat :=
  match df with
  | [] => 0
  | c :: _ => c.values.length

/-- The first loop of `ensure_columns` (lines 104-106): append an all-null
column of the row count for every required name not yet present. -/
def addMissing (d : Table) (required : List String) (n : Nat) : Table :=
  match required with
  | [] => d
  | r :: rs =>
    if d.any (fun c => c.name == r) then addMissing d rs n
    else addMissing (d ++ [⟨r, List.replicate n none⟩]) rs n

/-- Column selection `df[names]` with the pandas indexer semantics: each
selector entry picks out every column bearing that label, in order. -/
def selectCols (df : Table) (names : List String) : Table :=
  names.flatMap (fun n => df.filter (fun c => c.name == n))

/-- Embedding of `ensure_columns` (lines 103-108). -/
def ensure_columns (df : Table) (required : List String) : Table :=
  let withAdded := addMissing df required (nrowsT df)
  selectCols withAdded
    (required ++ (withAdded.map (·.name)).filter (fun n => !required.contains n))

/-- The full column normalization a sheet undergoes: `normalize_columns`
followed by `ensure_columns` over the canonical names, as at every call site
of `load_scorecard_from_excel`. -/
def normTable (df : Table) (schema : Schema) : Table :=
  ensure_columns (normalize_columns df schema) (schema.map Prod.fst)

/-- Embedding of `sanitize_dataframe` (lines 111-114): trim column names. -/
def sanitizeT (df : Table) : Table :=
  df.map (fun c => ⟨strTrim c.name, c.values⟩)

/-- Does a column key match this schema entry, in the words of the
specification: equal to the canonical name or to a registered synonym,
case-insensitively? -/
def entryMatches (e : String × List String) (key : String) : Bool :=
  (keysOf e).contains key

/-- Normalization as described by section 4.1 of the specification: matched
columns renamed and grouped under the canonical order, absent canonicals
added as all-null columns, unmatched columns preserved afterwards in their
original relative order. -/
def normalize_spec (df : Table) (schema : Schema) : Table :=
  let n := nrowsT df
  let canonical := schema.flatMap (fun e =>
    let ms := df.filter (fun c => entryMatches e (colKey c.name))
    if ms.isEmpty then [⟨e.1, List.replicate n none⟩]
    else ms.map (fun c => ⟨e.1, c.values⟩))
  let leftover := df.filter
    (fun c => !schema.any (fun e => entryMatches e (colKey c.name)))
  canonical ++ leftover

/-! ## The three canonical schemas (lines 24-54) -/

/-- PORTFOLIO_COLUMNS of weeklyupdate.py. -/
def PORTFOLIO_COLUMNS : Schema :=
  [("Initiative", ["project", "project name", "initiative name"]),
   ("Workstream", ["pillar", "tower", "portfolio"]),
   ("Owner", ["lead", "manager", "pm"]),
   ("Health", ["rag", "status", "overall status"]),
   ("Percent Complete",
     ["percent complete", "% complete", "progress", "progress (%)"]),
   ("Launch Date", ["start date", "kickoff"]),
   ("Target Date", ["end date", "go-live", "eta", "due date"]),
   ("Budget", ["planned spend", "allocated budget", "budget (usd)"]),
   ("Actual Spend", ["actuals", "actual spend", "spent"]),
   ("Status Summary", ["executive summary", "headline", "status notes"])]

/-- MILESTONE_COLUMNS of weeklyupdate.py. -/
def MILESTONE_COLUMNS : Schema :=
  [("Initiative", ["project", "project name"]),
   ("Milestone", ["milestone name", "deliverable"]),
   ("Target Date", ["due date", "eta", "planned date"]),
   ("Status", ["status", "rag"]),
   ("Owner", ["lead", "manager", "pm"]),
   ("Notes", ["comments", "context"])]

/-- RISK_COLUMNS of weeklyupdate.py. -/
def RISK_COLUMNS : Schema :=
  [("Initiative", ["project", "project name"]),
   ("Risk", ["risk description", "risk statement"]),
   ("Impact", ["impact level", "impact rating"]),
   ("Probability", ["likelihood", "probability level"]),
   ("Status", ["status", "rag"]),
   ("Mitigation", ["mitigation plan", "response"]),
   ("Owner", ["risk owner", "owner"])]

/-! ## Workbook loading (`load_scorecard_from_excel`, lines 117-145) -/

/-- Result of loading a workbook: the three tables and the warnings the UI
surfaced while loading. -/
structure LoadResult where
  portfolio : Table
  milestones : Table
  risks : Table
  warnings : List String
  deriving DecidableEq

/-- The empty table `pd.DataFrame(columns=keys)`: every canonical column
present with no rows. -/
def emptySheet (keys : List String) : Table :=
  keys.map (fun k => ⟨k, []⟩)

/-- Sheet lookup by exact name in the uploaded workbook. -/
def lookupSheet (sheets : List (String × Table)) (n : String) : Option Table :=
  (sheets.find? (fun s => s.1 == n)).map (·.2)

/-- Token standing for the single `st.warning` message the loader emits
(line 128), which concerns only the Portfolio sheet. -/
def portfolioWarning : String :=
  "No Portfolio tab found. Using an empty portfolio sheet."

/-- Embedding of `load_scorecard_from_excel` (lines 117-145): each expected
sheet is sanitized and normalized when present; a missing sheet is replaced
by an empty canonical table; only a missing Portfolio sheet emits a warning. -/
def load_scorecard (sheets : List (String × Table)) : LoadResult :=
  let portfolio :=
    match lookupSheet sheets "Portfolio" with
    | some t => normTable (sanitizeT t) PORTFOLIO_COLUMNS
    | none => emptySheet (PORTFOLIO_COLUMNS.map Prod.fst)
  let warnings :=
    match lookupSheet sheets "Portfolio" with
    | some _ => []
    | none => [portfolioWarning]
  let milestones :=
    match lookupSheet sheets "Milestones" with
    | some t => normTable (sanitizeT t) MILESTONE_COLUMNS
    | none => emptySheet (MILESTONE_COLUMNS.map Prod.fst)
  let risks :=
    match lookupSheet sheets "Risks" with
    | some t => normTable (sanitizeT t) RISK_COLUMNS
    | none => emptySheet (RISK_COLUMNS.map Prod.fst)
  ⟨portfolio, milestones, risks, warnings⟩

/-! ## Milestone bucketing (lines 424-434) -/

/-- A milestone row after date normalization: a label and the parsed target
date as a day number, `none` standing for an unparseable date (NaT). -/
structure MilestoneRow where
  label : String
  targetDate : Option Int
  deriving DecidableEq

/-- The Days From Today column: whole-day offset of the target date from the
reference date (both at midnight). -/
def daysFromToday (m : MilestoneRow) (today : Int) : Option Int :=
  m.targetDate.map (fun d => d - today)

/-- Comparison used by `sort_values("Target Date")` on rows whose dates are
all present. -/
def msLE (a b : MilestoneRow) : Prop :=
  a.targetDate.getD 0 ≤ b.targetDate.getD 0

instance : DecidableRel msLE := fun a b => by unfold msLE; infer_instance

instance : IsTotal MilestoneRow msLE :=
  ⟨fun a b => Int.le_total (a.targetDate.getD 0) (b.targetDate.getD 0)⟩

instance : IsTrans MilestoneRow msLE := ⟨fun _ _ _ h₁ h₂ => le_trans h₁ h₂⟩

/-- Embedding of `upcoming_milestones` (lines 428-431): rows with offset in
[0, lookahead], ascending by target date; rows with no date never compare
true. -/
def upcoming_milestones (ms : List MilestoneRow) (today la : Int) :
    List MilestoneRow :=
  List.insertionSort msLE (ms.filter (fun m =>
    match m.targetDate with
    | some d => decide (0 ≤ d - today) && decide (d - today ≤ la)
    | none => false))

/-- Embedding of `overdue_milestones` (lines 432-434): rows with negative
offset, ascending by target date. -/
def overdue_milestones (ms : List MilestoneRow) (today : Int) :
    List MilestoneRow :=
  List.insertionSort msLE (ms.filter (fun m =>
    match m.targetDate with
    | some d => decide (d - today < 0)
    | none => false))

/-! ## Concrete tables used by counterexamples and witnesses -/

/-- A table carrying both a Status column and a RAG column. -/
def dfStatusRag : Table := [⟨"Status", [some "Red"]⟩, ⟨"RAG", [some "Green"]⟩]

/-- A table with two unmatched columns sharing one name. -/
def dfZebra : Table := [⟨"Zebra", [some "1"]⟩, ⟨"Zebra", [some "2"]⟩]

/-- A well-formed table: two synonym-matched columns and one unmatched
column with a unique name. -/
def dfWitness : Table :=
  [⟨"Project", [some "Apollo"]⟩, ⟨"rag", [some "Red"]⟩, ⟨"Extra", [some "x"]⟩]

/-- A workbook holding only a Portfolio sheet. -/
def sheetsPortfolioOnly : List (String × Table) :=
  [("Portfolio", [⟨"Health", [some "Green"]⟩])]

/-- Concrete milestone rows: one past the look-ahead window, one five days
out, one due on the reference date, one a day overdue. -/
def msWitnessRows : List MilestoneRow :=
  [⟨"beyond", some 210⟩, ⟨"later", some 15⟩, ⟨"today", some 10⟩,
    ⟨"past", some 9⟩]

/-! ## Helper lemmas for the classifier -/

theorem unmatched_health_unknown (s : String)
    (h : healthRuleMatched (healthText s) = false) :
    categorize_health (some s) = "Unknown" := by
  simp only [healthRuleMatched, Bool.or_eq_false_iff] at h
  obtain ⟨⟨⟨⟨⟨h1, h2⟩, h3⟩, h4⟩, h5⟩, h6⟩ := h
  simp [categorize_health, h1, h2, h3, h4, h5, h6]

theorem risk_score_le_three (s : String) : risk_score s ≤ 3 := by
  unfold risk_score
  cases h : RISK_LEVEL_MAP.find? (fun e => e.1 == strLower s) with
  | none => simp
  | some e =>
    have hm := List.mem_of_find?_eq_some h
    fin_cases hm <;> simp

/-! ## Claim theorems: classifier and risk scorer -/

/-- Claim C1 counterexample: the end-to-end example health text
"Critical issue, blocked" does not classify `At Risk`; the red rule is exact
set membership, so the text falls through every rule and yields `Unknown`. -/
theorem c1_counterexample :
    categorize_health (some "Critical issue, blocked") ≠ "At Risk" ∧
      categorize_health (some "Critical issue, blocked") = "Unknown" := by
  constructor
  · decide
  · decide

/-- Claim C1 (amended): the five listed classifier examples hold as stated,
and the end-to-end example health text "Critical issue, blocked" classifies
`Unknown` rather than `At Risk`. -/
theorem c1_amended :
    categorize_health (some "Green") = "On Track" ∧
      categorize_health (some "RED") = "At Risk" ∧
      categorize_health (some "On Hold - vendor") = "On Hold" ∧
      categorize_health none = "Unknown" ∧
      categorize_health (some "") = "Unknown" ∧
      categorize_health (some "Critical issue, blocked") = "Unknown" := by
  refine ⟨by decide, by decide, by decide, by decide, by decide, by decide⟩

/-- Claim C2 counterexample: on text matched by no rule, both classification
call sites (portfolio Health Category, milestone Status Category) produce the
strict fallback `Unknown`; neither produces the title-cased original text, so
the program does not exhibit a passthrough fallback mode at any call site. -/
theorem c2_counterexample :
    healthCategoryColumn [some "flourishing"] = ["Unknown"] ∧
      statusCategoryColumn [some "flourishing"] = ["Unknown"] ∧
      ("Unknown" : String) ≠ "Flourishing" := by
  refine ⟨by decide, by decide, by decide⟩

/-- Claim C2 (amended): the classifier exposes a single fallback mode: both
classification call sites apply the same function `categorize_health`, and on
text matched by no rule that function returns `Unknown` at both call sites;
no passthrough (title-cased) fallback exists in the program. -/
theorem c2_amended :
    (∀ vals : List (Option String),
      statusCategoryColumn vals = healthCategoryColumn vals) ∧
      (∀ s : String, healthRuleMatched (healthText s) = false →
        healthCategoryColumn [some s] = ["Unknown"] ∧
          statusCategoryColumn [some s] = ["Unknown"]) := by
  constructor
  · intro vals; rfl
  · intro s h
    have hu := unmatched_health_unknown s h
    constructor
    · simp [healthCategoryColumn, hu]
    · simp [statusCategoryColumn, hu]

/-- Witness for C2 (amended) at the concrete unmatched text "novel". -/
theorem c2_amended_witness :
    healthRuleMatched (healthText "novel") = false ∧
      healthCategoryColumn [some "novel"] = ["Unknown"] ∧
      statusCategoryColumn [some "novel"] = ["Unknown"] :=
  ⟨by decide, (c2_amended.2 "novel" (by decide)).1,
    (c2_amended.2 "novel" (by decide)).2⟩

/-- Claim C3: for every input (null or any text), `categorize_health` returns
a member of the fixed status enumeration, and text matched by no rule resolves
to `Unknown` rather than an error. -/
theorem c3_classifier_total :
    (∀ v : Option String, categorize_health v ∈ statusEnum) ∧
      (∀ s : String, healthRuleMatched (healthText s) = false →
        categorize_health (some s) = "Unknown") := by
  constructor
  · intro v
    match v with
    | none => simp [categorize_health, statusEnum]
    | some s =>
      simp only [categorize_health, statusEnum]
      split_ifs <;> simp
  · exact unmatched_health_unknown

/-- Witness for C3 at the concrete inputs `none` and the unmatched Unicode
text "mystère". -/
theorem c3_classifier_total_witness :
    categorize_health none ∈ statusEnum ∧
      (healthRuleMatched (healthText "mystère") = false ∧
        categorize_health (some "mystère") = "Unknown") :=
  ⟨c3_classifier_total.1 none,
    by decide, c3_classifier_total.2 "mystère" (by decide)⟩

/-- Claim C8 (code bug): the claimed rule order is the intent — the
specification demands an integer-parseable digit test and a total function —
but the code tests `text.isdigit()` and then calls `int(text)` unguarded.
At the superscript-two input "²", `isdigit` accepts the text while `int`
cannot parse it, so a ValueError escapes `normalize_risk_level` instead of
the substring rules assigning Unknown. At decimal digit strings of any
script (such as Arabic-Indic "٢", value 2) and at ASCII inputs the code
agrees with the claimed rules, as the remaining conjuncts evaluate. -/
theorem c8_risk_level_code_bug :
    normalize_risk_level (some "²") = Except.error "ValueError" ∧
      normalize_risk_level_spec (some "²") = "Unknown" ∧
      normalize_risk_level (some "٢") = Except.ok "Medium" ∧
      normalize_risk_level_spec (some "٢") = "Medium" ∧
      normalize_risk_level (some "0") = Except.ok "Low" ∧
      normalize_risk_level (some "2") = Except.ok "Medium" ∧
      normalize_risk_level (some "17") = Except.ok "High" ∧
      normalize_risk_level (some "Low likelihood") = Except.ok "Low" ∧
      normalize_risk_level (some "medium") = Except.ok "Medium" ∧
      normalize_risk_level (some "HIGH") = Except.ok "High" ∧
      normalize_risk_level (some "severe") = Except.ok "High" ∧
      normalize_risk_level (some "") = Except.ok "Unknown" ∧
      normalize_risk_level none = Except.ok "Unknown" := by
  refine ⟨rfl, rfl, rfl, rfl, rfl, rfl, rfl, rfl, rfl, rfl, rfl, rfl, rfl⟩

/-- Claim C9: the severity score is the product of the two level ordinals,
with Low = 1, Medium = 2, High = 3, Unknown = 0; it is strictly monotone on
the diagonal, zero whenever the impact level is Unknown, and never exceeds 9. -/
theorem c9_severity_score :
    risk_score "Low" = 1 ∧ risk_score "Medium" = 2 ∧ risk_score "High" = 3 ∧
      risk_score "Unknown" = 0 ∧
      severityScore "High" "High" > severityScore "Medium" "Medium" ∧
      severityScore "Medium" "Medium" > severityScore "Low" "Low" ∧
      (∀ x : String, severityScore "Unknown" x = 0) ∧
      (∀ i p : String, severityScore i p ≤ 9) := by
  refine ⟨by decide, by decide, by decide, by decide, by decide, by decide,
    ?_, ?_⟩
  · intro x
    have h : risk_score "Unknown" = 0 := by decide
    simp [severityScore, h]
  · intro i p
    have := Nat.mul_le_mul (risk_score_le_three i) (risk_score_le_three p)
    simpa using this

/-! ## Claim theorems: loading, duplicate labels, counterexamples -/

/-- Claim C10: a table with both a Status column and a RAG column, normalized
against the Portfolio schema, has both renamed to Health, so the output holds
two distinct columns bearing the same canonical name; duplicates are neither
detected nor merged. -/
theorem c10_duplicate_canonical :
    ((normTable dfStatusRag PORTFOLIO_COLUMNS).map (·.name)).count "Health" = 2 ∧
      (normTable dfStatusRag PORTFOLIO_COLUMNS).filter
          (fun c => c.name == "Health") =
        [⟨"Health", [some "Red"]⟩, ⟨"Health", [some "Green"]⟩] := by
  refine ⟨by decide, by decide⟩

/-- Claim C4 counterexample: loading a workbook that has a Portfolio sheet
but no Milestones and no Risks sheet substitutes the empty canonical tables
yet surfaces no warning at all, refuting the claim that a warning accompanies
every missing expected sheet. -/
theorem c4_counterexample :
    (load_scorecard sheetsPortfolioOnly).warnings = [] ∧
      (load_scorecard sheetsPortfolioOnly).milestones =
        emptySheet (MILESTONE_COLUMNS.map Prod.fst) ∧
      (load_scorecard sheetsPortfolioOnly).risks =
        emptySheet (RISK_COLUMNS.map Prod.fst) := by
  refine ⟨rfl, rfl, rfl⟩

/-- Claim C4 (amended): a missing expected sheet is non-fatal: the empty
table with exactly the canonical column set is substituted and the other
sheets still load; a warning is surfaced only when the Portfolio sheet is
missing, and no warning accompanies a missing Milestones or Risks sheet. -/
theorem c4_amended (sheets : List (String × Table)) :
    ((lookupSheet sheets "Portfolio").isNone = true →
      (load_scorecard sheets).portfolio =
          emptySheet (PORTFOLIO_COLUMNS.map Prod.fst) ∧
        (load_scorecard sheets).warnings = [portfolioWarning]) ∧
      ((lookupSheet sheets "Milestones").isNone = true →
        (load_scorecard sheets).milestones =
          emptySheet (MILESTONE_COLUMNS.map Prod.fst)) ∧
      ((lookupSheet sheets "Risks").isNone = true →
        (load_scorecard sheets).risks =
          emptySheet (RISK_COLUMNS.map Prod.fst)) ∧
      ((lookupSheet sheets "Portfolio").isSome = true →
        (load_scorecard sheets).warnings = []) ∧
      (∀ t, lookupSheet sheets "Milestones" = some t →
        (load_scorecard sheets).milestones =
          normTable (sanitizeT t) MILESTONE_COLUMNS) := by
  refine ⟨?_, ?_, ?_, ?_, ?_⟩
  · intro h
    have hp : lookupSheet sheets "Portfolio" = none :=
      Option.isNone_iff_eq_none.mp h
    constructor <;> simp [load_scorecard, hp]
  · intro h
    have hm : lookupSheet sheets "Milestones" = none :=
      Option.isNone_iff_eq_none.mp h
    simp [load_scorecard, hm]
  · intro h
    have hr : lookupSheet sheets "Risks" = none :=
      Option.isNone_iff_eq_none.mp h
    simp [load_scorecard, hr]
  · intro h
    obtain ⟨t, ht⟩ := Option.isSome_iff_exists.mp h
    simp [load_scorecard, ht]
  · intro t ht
    simp [load_scorecard, ht]

/-- Witness for C4 (amended) at the empty workbook: every sheet is missing,
the canonical empty tables are substituted, and the only warning is the
Portfolio one. -/
theorem c4_amended_witness :
    (load_scorecard []).portfolio = emptySheet (PORTFOLIO_COLUMNS.map Prod.fst) ∧
      (load_scorecard []).warnings = [portfolioWarning] ∧
      (load_scorecard []).milestones =
        emptySheet (MILESTONE_COLUMNS.map Prod.fst) :=
  ⟨((c4_amended []).1 (by decide)).1, ((c4_amended []).1 (by decide)).2,
    (c4_amended []).2.1 (by decide)⟩

/-- Claim C5 counterexample: normalization is not idempotent for every table.
With two unmatched columns sharing the name Zebra, pandas label selection
duplicates them: one pass yields four Zebra columns, a second pass sixteen,
so the two passes disagree. -/
theorem c5_counterexample :
    normTable (normTable dfZebra PORTFOLIO_COLUMNS) PORTFOLIO_COLUMNS ≠
      normTable dfZebra PORTFOLIO_COLUMNS ∧
      ((normTable dfZebra PORTFOLIO_COLUMNS).map (·.name)).count "Zebra" = 4 ∧
      ((normTable (normTable dfZebra PORTFOLIO_COLUMNS)
          PORTFOLIO_COLUMNS).map (·.name)).count "Zebra" = 16 := by
  refine ⟨by decide, by decide, by decide⟩

/-- Claim C6 counterexample: with two unmatched columns sharing the name
Zebra, normalization against the Portfolio schema outputs four Zebra columns
while the input held two, so unmatched columns are not preserved as the claim
describes, and the output differs from the specification-side normalization. -/
theorem c6_counterexample :
    ((normTable dfZebra PORTFOLIO_COLUMNS).map (·.name)).count "Zebra" = 4 ∧
      (dfZebra.map (·.name)).count "Zebra" = 2 ∧
      normTable dfZebra PORTFOLIO_COLUMNS ≠
        normalize_spec dfZebra PORTFOLIO_COLUMNS := by
  refine ⟨by decide, by decide, by decide⟩

/-! ## Claim theorems: milestone bucketing -/

/-- Claim C7 counterexample: a milestone dated 200 days after the reference
date has a non-negative offset but lands in neither bucket, because the
upcoming bucket is capped by the look-ahead window (45 here): the bucket rule
is not simply Overdue when negative and Upcoming otherwise. -/
theorem c7_counterexample :
    daysFromToday ⟨"beyond", some 210⟩ 10 = some 200 ∧
      upcoming_milestones [⟨"beyond", some 210⟩] 10 45 = [] ∧
      overdue_milestones [⟨"beyond", some 210⟩] 10 = [] := by
  refine ⟨rfl, by decide, by decide⟩

/-- Claim C7 (amended): the day-offset is the whole-day difference of target
date and reference date; a milestone is Overdue when the offset is negative
and Upcoming when the offset lies within [0, lookahead] (a date past the
look-ahead window is in neither bucket); the D-1 / D / D+5 examples hold for
any look-ahead of at least 5 (the UI slider minimum is 14); each bucket is
ascending by date, and every Overdue date strictly precedes every Upcoming
date, so Overdue entries precede Upcoming entries in the combined
overdue-then-upcoming presentation. -/
theorem c7_amended (ms : List MilestoneRow) (today la : Int) (hla : 5 ≤ la) :
    (∀ m ∈ ms, ∀ d : Int, m.targetDate = some d →
        daysFromToday m today = some (d - today)) ∧
      (∀ m ∈ ms, m.targetDate = some (today - 1) →
        m ∈ overdue_milestones ms today ∧
          daysFromToday m today = some (-1)) ∧
      (∀ m ∈ ms, m.targetDate = some today →
        m ∈ upcoming_milestones ms today la ∧
          daysFromToday m today = some 0) ∧
      (∀ m ∈ ms, m.targetDate = some (today + 5) →
        m ∈ upcoming_milestones ms today la ∧
          daysFromToday m today = some 5) ∧
      List.Sorted msLE (overdue_milestones ms today) ∧
      List.Sorted msLE (upcoming_milestones ms today la) ∧
      (∀ a ∈ overdue_milestones ms today,
        ∀ b ∈ upcoming_milestones ms today la,
        ∀ da db : Int, a.targetDate = some da → b.targetDate = some db →
          da < db) ∧
      (∀ m ∈ ms, ∀ d : Int, m.targetDate = some d → la < d - today →
        m ∉ upcoming_milestones ms today la ∧
          m ∉ overdue_milestones ms today) := by
  have memUp : ∀ m ∈ ms, ∀ d : Int, m.targetDate = some d → 0 ≤ d - today →
      d - today ≤ la → m ∈ upcoming_milestones ms today la := by
    intro m hm d hd h0 h1
    unfold upcoming_milestones
    rw [(List.perm_insertionSort msLE _).mem_iff, List.mem_filter]
    exact ⟨hm, by simp [hd, h0, h1]⟩
  have memOv : ∀ m ∈ ms, ∀ d : Int, m.targetDate = some d → d - today < 0 →
      m ∈ overdue_milestones ms today := by
    intro m hm d hd hneg
    unfold overdue_milestones
    rw [(List.perm_insertionSort msLE _).mem_iff, List.mem_filter]
    exact ⟨hm, by simp [hd, hneg]⟩
  have upBound : ∀ b ∈ upcoming_milestones ms today la, ∀ db : Int,
      b.targetDate = some db → 0 ≤ db - today ∧ db - today ≤ la := by
    intro b hb db hdb
    unfold upcoming_milestones at hb
    rw [(List.perm_insertionSort msLE _).mem_iff, List.mem_filter] at hb
    have h := hb.2
    simp [hdb] at h
    omega
  have ovBound : ∀ a ∈ overdue_milestones ms today, ∀ da : Int,
      a.targetDate = some da → da - today < 0 := by
    intro a ha da hda
    unfold overdue_milestones at ha
    rw [(List.perm_insertionSort msLE _).mem_iff, List.mem_filter] at ha
    have h := ha.2
    simp [hda] at h
    omega
  refine ⟨?_, ?_, ?_, ?_, ?_, ?_, ?_, ?_⟩
  · intro m _ d hd
    simp [daysFromToday, hd]
  · intro m hm hd
    refine ⟨memOv m hm _ hd (by omega), ?_⟩
    simp [daysFromToday, hd]
  · intro m hm hd
    refine ⟨memUp m hm _ hd (by omega) (by omega), ?_⟩
    simp [daysFromToday, hd]
  · intro m hm hd
    refine ⟨memUp m hm _ hd (by omega) (by omega), ?_⟩
    simp [daysFromToday, hd]
  · exact List.sorted_insertionSort msLE _
  · exact List.sorted_insertionSort msLE _
  · intro a ha b hb da db hda hdb
    have h1 := ovBound a ha da hda
    have h2 := upBound b hb db hdb
    omega
  · intro m _ d hd hfar
    constructor
    · intro hmem
      have := (upBound m hmem d hd).2
      omega
    · intro hmem
      have := ovBound m hmem d hd
      omega

/-- Witness for C7 (amended) at a concrete row list, reference date 10 and
look-ahead 45. -/
theorem c7_amended_witness :
    (⟨"past", some 9⟩ : MilestoneRow) ∈ overdue_milestones msWitnessRows 10 ∧
      (⟨"today", some 10⟩ : MilestoneRow) ∈
        upcoming_milestones msWitnessRows 10 45 ∧
      (⟨"later", some 15⟩ : MilestoneRow) ∈
        upcoming_milestones msWitnessRows 10 45 ∧
      List.Sorted msLE (overdue_milestones msWitnessRows 10) :=
  ⟨((c7_amended msWitnessRows 10 45 (by decide)).2.1 _ (by decide)
      (by decide)).1,
    ((c7_amended msWitnessRows 10 45 (by decide)).2.2.1 _ (by decide)
      (by decide)).1,
    ((c7_amended msWitnessRows 10 45 (by decide)).2.2.2.1 _ (by decide)
      (by decide)).1,
    (c7_amended msWitnessRows 10 45 (by decide)).2.2.2.2.1⟩

/-! ## Helper lemmas for column normalization -/

theorem flatMap_single_of_unique {α β : Type} {l : List α} {f : α → List β}
    {a : α} (ha : a ∈ l) (hnd : l.Nodup)
    (hz : ∀ b ∈ l, b ≠ a → f b = []) : l.flatMap f = f a := by
  induction l with
  | nil => cases ha
  | cons x t ih =>
    rw [List.nodup_cons] at hnd
    rcases List.mem_cons.mp ha with rfl | hat
    · rw [List.flatMap_cons]
      have ht : t.flatMap f = [] := by
        rw [List.flatMap_eq_nil_iff]
        intro b hb
        exact hz b (List.mem_cons_of_mem _ hb) (fun he => hnd.1 (he ▸ hb))
      rw [ht, List.append_nil]
    · rw [List.flatMap_cons,
        hz x (List.mem_cons_self _ _) (fun he => hnd.1 (he ▸ hat)),
        List.nil_append]
      exact ih hat hnd.2 (fun b hb => hz b (List.mem_cons_of_mem _ hb))

theorem map_filter_swap {α β : Type} (l : List α) (f : α → β) (p : β → Bool) :
    (l.map f).filter p = (l.filter (fun a => p (f a))).map f := by
  induction l with
  | nil => rfl
  | cons x t ih =>
    by_cases h : p (f x) = true
    · simp [List.filter_cons, h, ih]
    · simp [List.filter_cons, h, ih]

theorem contains_iff_mem_str {l : List String} {a : String} :
    l.contains a = true ↔ a ∈ l := by
  simp only [List.contains]
  exact List.elem_iff

theorem addMissing_eq (req : List String) (d : Table) (n : Nat)
    (hnd : req.Nodup) :
    addMissing d req n =
      d ++ (req.filter (fun r => !d.any (fun c => c.name == r))).map
        (fun r => (⟨r, List.replicate n none⟩ : Col)) := by
  induction req generalizing d with
  | nil => simp [addMissing]
  | cons r rs ih =>
    rw [List.nodup_cons] at hnd
    by_cases h : d.any (fun c => c.name == r) = true
    · rw [addMissing, if_pos h, ih d hnd.2]
      simp [List.filter_cons, h]
    · rw [addMissing, if_neg h,
        ih (d ++ [(⟨r, List.replicate n none⟩ : Col)]) hnd.2]
      have hfc : rs.filter (fun r' =>
            !((d ++ [(⟨r, List.replicate n none⟩ : Col)]).any
              (fun c => c.name == r'))) =
          rs.filter (fun r' => !d.any (fun c => c.name == r')) := by
        apply List.filter_congr
        intro r' hr'
        have hne : (r == r') = false := by
          have hrr : r ≠ r' := fun he => hnd.1 (he ▸ hr')
          simp [hrr]
        simp [List.any_append, hne]
      rw [hfc]
      simp [List.filter_cons, h, List.append_assoc]

theorem addMissing_of_all_mem {req : List String} {d : Table} {n : Nat}
    (hnd : req.Nodup)
    (hall : ∀ r ∈ req, d.any (fun c => c.name == r) = true) :
    addMissing d req n = d := by
  rw [addMissing_eq req d n hnd]
  have hz : req.filter (fun r => !d.any (fun c => c.name == r)) = [] := by
    rw [List.filter_eq_nil_iff]
    intro r hr
    simp [hall r hr]
  rw [hz]
  simp

theorem addMissing_any {req : List String} {d : Table} {n : Nat} {r : String}
    (hnd : req.Nodup) (hr : r ∈ req) :
    (addMissing d req n).any (fun c => c.name == r) = true := by
  rw [addMissing_eq req d n hnd, List.any_append]
  by_cases h : d.any (fun c => c.name == r) = true
  · simp [h]
  · have hmem : (⟨r, List.replicate n none⟩ : Col) ∈
        (req.filter (fun x => !d.any (fun c => c.name == x))).map
          (fun x => (⟨x, List.replicate n none⟩ : Col)) := by
      apply List.mem_map_of_mem
      rw [List.mem_filter]
      exact ⟨hr, by simp [h]⟩
    have : ((req.filter (fun x => !d.any (fun c => c.name == x))).map
        (fun x => (⟨x, List.replicate n none⟩ : Col))).any
          (fun c => c.name == r) = true := by
      rw [List.any_eq_true]
      exact ⟨_, hmem, by simp⟩
    simp [this]

theorem mem_selectCols {d : Table} {ns : List String} {c : Col} :
    c ∈ selectCols d ns ↔ ∃ n ∈ ns, c ∈ d ∧ c.name = n := by
  simp [selectCols, List.mem_flatMap, List.mem_filter, beq_iff_eq]

theorem selectCols_append (d : Table) (as bs : List String) :
    selectCols d (as ++ bs) = selectCols d as ++ selectCols d bs := by
  simp [selectCols]

theorem findCanon_mem {schema : Schema} {key c : String}
    (h : findCanon schema key = some c) : c ∈ schema.map Prod.fst := by
  unfold findCanon at h
  cases hf : (lookupPairs schema).reverse.find? (fun p => p.1 == key) with
  | none => rw [hf] at h; simp at h
  | some p =>
    rw [hf] at h
    simp at h
    have hp : p ∈ (lookupPairs schema).reverse := List.mem_of_find?_eq_some hf
    rw [List.mem_reverse] at hp
    unfold lookupPairs at hp
    rw [List.mem_flatMap] at hp
    obtain ⟨e, he, hpe⟩ := hp
    rw [List.mem_map] at hpe
    obtain ⟨k, _, hk⟩ := hpe
    have : p.2 = e.1 := by rw [← hk]
    rw [← h, this]
    exact List.mem_map_of_mem Prod.fst he

theorem renameName_of_some {schema : Schema} {n c : String}
    (h : findCanon schema (colKey n) = some c) : renameName schema n = c := by
  simp [renameName, h]

theorem renameName_of_none {schema : Schema} {n : String}
    (h : findCanon schema (colKey n) = none) : renameName schema n = n := by
  simp [renameName, h]

theorem rename_fix {schema : Schema}
    (H1 : ∀ c ∈ schema.map Prod.fst, findCanon schema (colKey c) = some c)
    (n : String) :
    (renameName schema n ∈ schema.map Prod.fst ∧
      findCanon schema (colKey (renameName schema n)) =
        some (renameName schema n)) ∨
    (renameName schema n ∉ schema.map Prod.fst ∧
      findCanon schema (colKey (renameName schema n)) = none ∧
      renameName schema n = n) := by
  cases hf : findCanon schema (colKey n) with
  | some c =>
    left
    have hc := findCanon_mem hf
    rw [renameName_of_some hf]
    exact ⟨hc, H1 c hc⟩
  | none =>
    right
    rw [renameName_of_none hf]
    refine ⟨?_, hf, rfl⟩
    intro hmem
    have hcn := H1 n hmem
    rw [hf] at hcn
    simp at hcn

theorem normalized_col_names {schema : Schema} {df : Table}
    (H1 : ∀ c ∈ schema.map Prod.fst, findCanon schema (colKey c) = some c)
    {x : Col} (hx : x ∈ normalize_columns df schema) :
    (x.name ∈ schema.map Prod.fst ∧
      findCanon schema (colKey x.name) = some x.name) ∨
    (x.name ∉ schema.map Prod.fst ∧
      findCanon schema (colKey x.name) = none) := by
  rw [normalize_columns, List.mem_map] at hx
  obtain ⟨c, _, hc⟩ := hx
  rcases rename_fix H1 c.name with ⟨h1, h2⟩ | ⟨h1, h2, _⟩
  · left; rw [← hc]; exact ⟨h1, h2⟩
  · right; rw [← hc]; exact ⟨h1, h2⟩

theorem added_table_names {schema : Schema} {df : Table} {m : Nat}
    (H1 : ∀ c ∈ schema.map Prod.fst, findCanon schema (colKey c) = some c)
    (H3 : (schema.map Prod.fst).Nodup) {x : Col}
    (hx : x ∈ addMissing (normalize_columns df schema)
      (schema.map Prod.fst) m) :
    (x.name ∈ schema.map Prod.fst ∧
      findCanon schema (colKey x.name) = some x.name) ∨
    (x.name ∉ schema.map Prod.fst ∧
      findCanon schema (colKey x.name) = none) := by
  rw [addMissing_eq _ _ _ H3] at hx
  rcases List.mem_append.mp hx with h | h
  · exact normalized_col_names H1 h
  · left
    rw [List.mem_map] at h
    obtain ⟨r, hr, hrx⟩ := h
    rw [List.mem_filter] at hr
    have hxr : x.name = r := by rw [← hrx]
    rw [hxr]
    exact ⟨hr.1, H1 r hr.1⟩

theorem rename_names_filter {schema : Schema}
    (H1 : ∀ c ∈ schema.map Prod.fst, findCanon schema (colKey c) = some c)
    (ns : List String) :
    (ns.map (renameName schema)).filter
        (fun n => !(schema.map Prod.fst).contains n) =
      ns.filter (fun n => (findCanon schema (colKey n)).isNone) := by
  induction ns with
  | nil => rfl
  | cons n t ih =>
    rw [List.map_cons]
    cases hf : findCanon schema (colKey n) with
    | some x =>
      have hmem : renameName schema n ∈ schema.map Prod.fst := by
        rw [renameName_of_some hf]
        exact findCanon_mem hf
      simp [List.filter_cons, hmem, hf]
      simpa using ih
    | none =>
      have hnm : n ∉ schema.map Prod.fst := by
        intro hmem
        have hcn := H1 n hmem
        rw [hf] at hcn
        simp at hcn
      simp [List.filter_cons, renameName_of_none hf, hnm, hf]
      simpa using ih

theorem normalize_columns_names (df : Table) (schema : Schema) :
    (normalize_columns df schema).map (·.name) =
      (df.map (·.name)).map (renameName schema) := by
  simp [normalize_columns, List.map_map]

theorem flatMap_filter_names {l : List Col} {q : String → Bool}
    (h : ((l.map (·.name)).filter q).Nodup) :
    ((l.map (·.name)).filter q).flatMap
        (fun n => l.filter (fun c => c.name == n)) =
      l.filter (fun c => q c.name) := by
  induction l with
  | nil => simp
  | cons c t ih =>
    by_cases hq : q c.name = true
    · have hlist : ((c :: t).map (·.name)).filter q =
          c.name :: (t.map (·.name)).filter q := by
        simp [List.filter_cons, hq]
      rw [hlist] at h ⊢
      rw [List.nodup_cons] at h
      rw [List.flatMap_cons]
      have hblock : (c :: t).filter (fun x => x.name == c.name) = [c] := by
        have htail : t.filter (fun x => x.name == c.name) = [] := by
          rw [List.filter_eq_nil_iff]
          intro x hx hbe
          have hxn : x.name = c.name := by simpa using hbe
          apply h.1
          rw [List.mem_filter]
          exact ⟨hxn ▸ List.mem_map_of_mem _ hx, hq⟩
        simp [List.filter_cons, htail]
      have hrest : ((t.map (·.name)).filter q).flatMap
            (fun n => (c :: t).filter (fun x => x.name == n)) =
          ((t.map (·.name)).filter q).flatMap
            (fun n => t.filter (fun x => x.name == n)) := by
        apply List.flatMap_congr
        intro n hn
        have hne : (c.name == n) = false := by
          have hcn : c.name ≠ n := fun he => h.1 (he ▸ hn)
          simp [hcn]
        simp [List.filter_cons, hne]
      rw [hblock, hrest, ih h.2]
      simp [List.filter_cons, hq]
    · have hlist : ((c :: t).map (·.name)).filter q =
          (t.map (·.name)).filter q := by
        simp [List.filter_cons, hq]
      rw [hlist] at h ⊢
      have hrest : ((t.map (·.name)).filter q).flatMap
            (fun n => (c :: t).filter (fun x => x.name == n)) =
          ((t.map (·.name)).filter q).flatMap
            (fun n => t.filter (fun x => x.name == n)) := by
        apply List.flatMap_congr
        intro n hn
        rw [List.mem_filter] at hn
        have hne : (c.name == n) = false := by
          have hcn : c.name ≠ n := by
            intro he
            rw [← he] at hn
            rw [hn.2] at hq
            exact hq rfl
          simp [hcn]
        simp [List.filter_cons, hne]
      rw [hrest, ih h]
      simp [List.filter_cons, hq]

theorem flatMap_names_self {l : List Col} (h : (l.map (·.name)).Nodup) :
    (l.map (·.name)).flatMap (fun n => l.filter (fun c => c.name == n)) = l := by
  have h2 : ((l.map (·.name)).filter (fun _ => true)).Nodup := by
    rw [List.filter_true]; exact h
  have h3 := flatMap_filter_names (q := fun _ => true) h2
  rw [List.filter_true] at h3
  simpa using h3

theorem adds_names_filter_nil (req : List String) (p : String → Bool)
    (n : Nat) :
    ((((req.filter p).map
        (fun r => (⟨r, List.replicate n none⟩ : Col))).map (·.name)).filter
      (fun m => !req.contains m)) = [] := by
  rw [List.map_map, List.filter_eq_nil_iff]
  intro m hm hq
  rw [List.mem_map] at hm
  obtain ⟨r, hr, hrm⟩ := hm
  rw [List.mem_filter] at hr
  have hmr : m = r := by simpa using hrm.symm
  rw [hmr, contains_iff_mem_str.mpr hr.1] at hq
  simp at hq

/-- Claim C5 (amended): column normalization is idempotent for every schema
satisfying the data-model invariants (canonical names are distinct and are
fixed points of the synonym lookup) and every table whose unmatched column
names are pairwise distinct. Without the last condition pandas label
selection duplicates repeated leftover labels and a second pass grows the
table further. -/
theorem c5_amended (schema : Schema) (df : Table)
    (H1 : ∀ c ∈ schema.map Prod.fst, findCanon schema (colKey c) = some c)
    (H3 : (schema.map Prod.fst).Nodup)
    (Hdup : ((df.map (·.name)).filter
      (fun n => (findCanon schema (colKey n)).isNone)).Nodup) :
    normTable (normTable df schema) schema = normTable df schema := by
  have h_out : normTable df schema =
      selectCols
        (addMissing (normalize_columns df schema) (schema.map Prod.fst)
          (nrowsT (normalize_columns df schema)))
        ((schema.map Prod.fst) ++
          ((addMissing (normalize_columns df schema) (schema.map Prod.fst)
            (nrowsT (normalize_columns df schema))).map (·.name)).filter
            (fun n => !(schema.map Prod.fst).contains n)) := rfl
  set rn := normalize_columns df schema with hrn
  set dfA := addMissing rn (schema.map Prod.fst) (nrowsT rn) with hdfA
  set lfN := (dfA.map (·.name)).filter
    (fun n => !(schema.map Prod.fst).contains n) with hlfN
  rw [h_out]
  set out := selectCols dfA (schema.map Prod.fst ++ lfN) with hout
  set CP := selectCols dfA (schema.map Prod.fst) with hCP
  set plainLF := dfA.filter
    (fun c => !(schema.map Prod.fst).contains c.name) with hplainLF
  -- names of every column of the filled table
  have hnamesA : ∀ x ∈ dfA,
      (x.name ∈ schema.map Prod.fst ∧
        findCanon schema (colKey x.name) = some x.name) ∨
      (x.name ∉ schema.map Prod.fst ∧
        findCanon schema (colKey x.name) = none) := by
    intro x hx
    rw [hdfA, hrn] at hx
    exact added_table_names H1 H3 hx
  -- the leftover selector names are exactly the unmatched original names
  have hNd : lfN.Nodup := by
    have he : lfN = (df.map (·.name)).filter
        (fun n => (findCanon schema (colKey n)).isNone) := by
      rw [hlfN, hdfA, addMissing_eq _ _ _ H3, List.map_append,
        List.filter_append, adds_names_filter_nil, List.append_nil, hrn,
        normalize_columns_names, rename_names_filter H1]
    rw [he]
    exact Hdup
  -- the leftover block of the output
  have hLF : selectCols dfA lfN = plainLF := by
    rw [hlfN, hplainLF]
    exact flatMap_filter_names (hlfN ▸ hNd)
  have hsplit : out = CP ++ plainLF := by
    rw [hout, selectCols_append, ← hCP, ← hLF]
  -- renaming fixes the output
  have hfix : normalize_columns out schema = out := by
    have hcong : ∀ x ∈ out,
        (⟨renameName schema x.name, x.values⟩ : Col) = x := by
      intro x hx
      rw [hsplit] at hx
      rcases List.mem_append.mp hx with hxc | hxl
      · rw [hCP, mem_selectCols] at hxc
        obtain ⟨r, hrreq, hxA, hxr⟩ := hxc
        rcases hnamesA x hxA with ⟨_, hsome⟩ | ⟨hnot, _⟩
        · rw [renameName_of_some hsome]
        · exfalso; apply hnot; rw [hxr]; exact hrreq
      · rw [hplainLF, List.mem_filter] at hxl
        rcases hnamesA x hxl.1 with ⟨hmem, _⟩ | ⟨_, hnone⟩
        · exfalso
          rw [contains_iff_mem_str.mpr hmem] at hxl
          simpa using hxl.2
        · rw [renameName_of_none hnone]
    calc normalize_columns out schema
        = out.map (fun c => (⟨renameName schema c.name, c.values⟩ : Col)) :=
          rfl
      _ = out.map id := List.map_congr_left hcong
      _ = out := List.map_id _
  -- every canonical column is present in the output
  have hpres : ∀ r ∈ schema.map Prod.fst,
      out.any (fun c => c.name == r) = true := by
    intro r hr
    have hA : dfA.any (fun c => c.name == r) = true := by
      rw [hdfA]
      exact addMissing_any H3 hr
    rw [List.any_eq_true] at hA
    obtain ⟨x, hx, hxr⟩ := hA
    rw [List.any_eq_true]
    refine ⟨x, ?_, hxr⟩
    rw [hout, mem_selectCols]
    exact ⟨r, List.mem_append_left _ hr, hx, by simpa using hxr⟩
  have haddout : addMissing out (schema.map Prod.fst) (nrowsT out) = out :=
    addMissing_of_all_mem H3 hpres
  -- the second-pass leftover selector
  have hNdLF : (plainLF.map (·.name)).Nodup := by
    have he : plainLF.map (·.name) = lfN := by
      rw [hplainLF, hlfN, map_filter_swap]
    rw [he]
    exact hNd
  have hlf2 : (out.map (·.name)).filter
      (fun n => !(schema.map Prod.fst).contains n) = plainLF.map (·.name) := by
    rw [hsplit, List.map_append, List.filter_append]
    have hcp0 : (CP.map (·.name)).filter
        (fun n => !(schema.map Prod.fst).contains n) = [] := by
      rw [List.filter_eq_nil_iff]
      intro m hm hq
      rw [List.mem_map] at hm
      obtain ⟨x, hx, hxm⟩ := hm
      rw [hCP, mem_selectCols] at hx
      obtain ⟨r, hrreq, _, hxr⟩ := hx
      rw [← hxm, hxr, contains_iff_mem_str.mpr hrreq] at hq
      simp at hq
    have hlfself : (plainLF.map (·.name)).filter
        (fun n => !(schema.map Prod.fst).contains n) = plainLF.map (·.name) := by
      rw [List.filter_eq_self]
      intro m hm
      rw [List.mem_map] at hm
      obtain ⟨x, hx, hxm⟩ := hm
      rw [hplainLF, List.mem_filter] at hx
      rw [← hxm]
      exact hx.2
    rw [hcp0, hlfself, List.nil_append]
  -- re-selecting the canonical block
  have hS9 : selectCols out (schema.map Prod.fst) = CP := by
    have hcong : ∀ r ∈ schema.map Prod.fst,
        out.filter (fun c => c.name == r) =
          dfA.filter (fun c => c.name == r) := by
      intro r hr
      rw [hsplit, List.filter_append]
      have hlf0 : plainLF.filter (fun c => c.name == r) = [] := by
        rw [List.filter_eq_nil_iff]
        intro x hx hxr
        rw [hplainLF, List.mem_filter] at hx
        have hxname : x.name = r := by simpa using hxr
        rw [hxname, contains_iff_mem_str.mpr hr] at hx
        simpa using hx.2
      have hcpf : CP.filter (fun c => c.name == r) =
          dfA.filter (fun c => c.name == r) := by
        rw [hCP, selectCols, List.filter_flatMap]
        have hz : ∀ r' ∈ schema.map Prod.fst, r' ≠ r →
            (dfA.filter (fun c => c.name == r')).filter
              (fun c => c.name == r) = [] := by
          intro r' _ hne
          rw [List.filter_eq_nil_iff]
          intro x hx hxr
          rw [List.mem_filter] at hx
          have h1 : x.name = r' := by simpa using hx.2
          have h2 : x.name = r := by simpa using hxr
          exact hne (h1 ▸ h2)
        rw [flatMap_single_of_unique hr H3 hz]
        rw [List.filter_eq_self]
        intro x hx
        exact (List.mem_filter.mp hx).2
      rw [hlf0, hcpf, List.append_nil]
    rw [hCP]
    exact List.flatMap_congr hcong
  -- re-selecting the leftover block
  have hS10 : selectCols out (plainLF.map (·.name)) = plainLF := by
    have hcong : ∀ n ∈ plainLF.map (·.name),
        out.filter (fun c => c.name == n) =
          plainLF.filter (fun c => c.name == n) := by
      intro n hn
      have hnnot : n ∉ schema.map Prod.fst := by
        rw [List.mem_map] at hn
        obtain ⟨x, hx, hxn⟩ := hn
        rw [hplainLF, List.mem_filter] at hx
        intro hmem
        have hc : (List.map Prod.fst schema).contains x.name = true := by
          rw [hxn]; exact contains_iff_mem_str.mpr hmem
        rw [hc] at hx
        simpa using hx.2
      rw [hsplit, List.filter_append]
      have hcp0 : CP.filter (fun c => c.name == n) = [] := by
        rw [List.filter_eq_nil_iff]
        intro x hx hxn
        rw [hCP, mem_selectCols] at hx
        obtain ⟨r, hrreq, _, hxr⟩ := hx
        have hnr : n = r := by
          have h2 : x.name = n := by simpa using hxn
          rw [← h2, hxr]
        exact hnnot (hnr ▸ hrreq)
      rw [hcp0, List.nil_append]
    calc selectCols out (plainLF.map (·.name))
        = (plainLF.map (·.name)).flatMap
            (fun n => out.filter (fun c => c.name == n)) := rfl
      _ = (plainLF.map (·.name)).flatMap
            (fun n => plainLF.filter (fun c => c.name == n)) :=
          List.flatMap_congr hcong
      _ = plainLF := flatMap_names_self hNdLF
  -- assemble the second pass
  have h2 : normTable out schema = ensure_columns out (schema.map Prod.fst) := by
    rw [normTable, hfix]
  rw [h2]
  show selectCols (addMissing out (schema.map Prod.fst) (nrowsT out))
      ((schema.map Prod.fst) ++
        ((addMissing out (schema.map Prod.fst) (nrowsT out)).map (·.name)).filter
          (fun n => !(schema.map Prod.fst).contains n)) = out
  rw [haddout, hlf2, selectCols_append, hS9, hS10, hsplit]

/-- Witness for C5 (amended) at the Portfolio schema and a table with two
matched columns and one unmatched column. -/
theorem c5_amended_witness :
    normTable (normTable dfWitness PORTFOLIO_COLUMNS) PORTFOLIO_COLUMNS =
      normTable dfWitness PORTFOLIO_COLUMNS :=
  c5_amended PORTFOLIO_COLUMNS dfWitness (by decide) (by decide) (by decide)

theorem lookupPairs_mem {schema : Schema} {p : String × String} :
    p ∈ lookupPairs schema ↔ ∃ e ∈ schema, p.1 ∈ keysOf e ∧ p.2 = e.1 := by
  unfold lookupPairs
  rw [List.mem_flatMap]
  constructor
  · rintro ⟨e, he, hpe⟩
    rw [List.mem_map] at hpe
    obtain ⟨k, hk, hkp⟩ := hpe
    refine ⟨e, he, ?_, ?_⟩
    · rw [← hkp]; exact hk
    · rw [← hkp]
  · rintro ⟨e, he, hk, hp2⟩
    refine ⟨e, he, ?_⟩
    rw [List.mem_map]
    exact ⟨p.1, hk, by rw [← hp2]⟩

theorem entryMatches_iff_keysOf {e : String × List String} {k : String} :
    entryMatches e k = true ↔ k ∈ keysOf e := by
  unfold entryMatches
  exact contains_iff_mem_str

theorem findCanon_none_iff {schema : Schema} {key : String} :
    findCanon schema key = none ↔
      ∀ e ∈ schema, entryMatches e key = false := by
  constructor
  · intro h e he
    by_contra hne
    rw [Bool.not_eq_false] at hne
    have hk : key ∈ keysOf e := entryMatches_iff_keysOf.mp hne
    have hpmem : (key, e.1) ∈ (lookupPairs schema).reverse := by
      rw [List.mem_reverse]
      exact lookupPairs_mem.mpr ⟨e, he, hk, rfl⟩
    unfold findCanon at h
    cases hf : (lookupPairs schema).reverse.find? (fun p => p.1 == key) with
    | none =>
      have hnp := List.find?_eq_none.mp hf _ hpmem
      simp at hnp
    | some p => rw [hf] at h; simp at h
  · intro h
    unfold findCanon
    cases hf : (lookupPairs schema).reverse.find? (fun p => p.1 == key) with
    | none => rfl
    | some p =>
      exfalso
      have hp := List.mem_of_find?_eq_some hf
      rw [List.mem_reverse] at hp
      obtain ⟨e, he, hk, _⟩ := lookupPairs_mem.mp hp
      have hpk : p.1 = key := by simpa using List.find?_some hf
      rw [hpk] at hk
      have hme := h e he
      rw [← Bool.not_eq_true, entryMatches_iff_keysOf] at hme
      exact hme hk

theorem findCanon_some_match {schema : Schema} {key c : String}
    (h : findCanon schema key = some c) :
    ∃ e ∈ schema, e.1 = c ∧ entryMatches e key = true := by
  unfold findCanon at h
  cases hf : (lookupPairs schema).reverse.find? (fun p => p.1 == key) with
  | none => rw [hf] at h; simp at h
  | some p =>
    rw [hf] at h
    simp at h
    have hp := List.mem_of_find?_eq_some hf
    rw [List.mem_reverse] at hp
    obtain ⟨e, he, hk, hp2⟩ := lookupPairs_mem.mp hp
    have hpk : p.1 = key := by simpa using List.find?_some hf
    rw [hpk] at hk
    exact ⟨e, he, by rw [← h, hp2], entryMatches_iff_keysOf.mpr hk⟩

theorem findCanon_of_match {schema : Schema} {key : String}
    {e : String × List String}
    (H2 : List.Pairwise
      (fun e₁ e₂ => ∀ k ∈ keysOf e₁, k ∉ keysOf e₂) schema)
    (he : e ∈ schema) (hm : entryMatches e key = true) :
    findCanon schema key = some e.1 := by
  have hsym : Symmetric (α := String × List String)
      (fun e₁ e₂ => ∀ k ∈ keysOf e₁, k ∉ keysOf e₂) := by
    intro a b hab k hk hka
    exact hab k hka hk
  have hdisj := H2.forall hsym
  have hk : key ∈ keysOf e := entryMatches_iff_keysOf.mp hm
  have hpmem : (key, e.1) ∈ (lookupPairs schema).reverse := by
    rw [List.mem_reverse]
    exact lookupPairs_mem.mpr ⟨e, he, hk, rfl⟩
  unfold findCanon
  cases hf : (lookupPairs schema).reverse.find? (fun p => p.1 == key) with
  | none =>
    exfalso
    have hnp := List.find?_eq_none.mp hf _ hpmem
    simp at hnp
  | some p =>
    have hp := List.mem_of_find?_eq_some hf
    rw [List.mem_reverse] at hp
    obtain ⟨e2, he2, hk2, hp2⟩ := lookupPairs_mem.mp hp
    have hpk : p.1 = key := by simpa using List.find?_some hf
    rw [hpk] at hk2
    by_cases hee : e2 = e
    · simp [hp2, hee]
    · exact absurd hk (hdisj he2 he hee key hk2)

theorem entry_unique {schema : Schema}
    (H3 : (schema.map Prod.fst).Nodup) {e e2 : String × List String}
    (he : e ∈ schema) (he2 : e2 ∈ schema) (h : e.1 = e2.1) : e = e2 :=
  List.inj_on_of_nodup_map H3 he he2 h

theorem nrowsT_normalize (df : Table) (schema : Schema) :
    nrowsT (normalize_columns df schema) = nrowsT df := by
  cases df <;> rfl

theorem rn_leftover_cols {schema : Schema} {df : Table}
    (H1 : ∀ c ∈ schema.map Prod.fst, findCanon schema (colKey c) = some c) :
    (normalize_columns df schema).filter
        (fun c => !(schema.map Prod.fst).contains c.name) =
      df.filter (fun c => (findCanon schema (colKey c.name)).isNone) := by
  induction df with
  | nil => rfl
  | cons c t ih =>
    simp only [normalize_columns, List.map_cons] at ih ⊢
    cases hf : findCanon schema (colKey c.name) with
    | some x =>
      have hmem : renameName schema c.name ∈ schema.map Prod.fst := by
        rw [renameName_of_some hf]
        exact findCanon_mem hf
      simp [List.filter_cons, hmem, hf]
      simpa using ih
    | none =>
      have hnm : c.name ∉ schema.map Prod.fst := by
        intro hmem
        have hcn := H1 c.name hmem
        rw [hf] at hcn
        simp at hcn
      have hren : renameName schema c.name = c.name := renameName_of_none hf
      simp [List.filter_cons, hren, hnm, hf]
      simpa using ih

theorem findCanon_isNone_eq {schema : Schema} {key : String} :
    (findCanon schema key).isNone =
      !schema.any (fun e => entryMatches e key) := by
  cases hf : findCanon schema key with
  | some c =>
    obtain ⟨e, he, _, hm⟩ := findCanon_some_match hf
    have hany : schema.any (fun e => entryMatches e key) = true := by
      rw [List.any_eq_true]
      exact ⟨e, he, hm⟩
    rw [hany]
    rfl
  | none =>
    have hall := findCanon_none_iff.mp hf
    have hany : schema.any (fun e => entryMatches e key) = false := by
      rw [List.any_eq_false]
      intro e he
      rw [hall e he]
      simp
    rw [hany]
    rfl

theorem filter_beq_of_nodup {l : List String} (h : l.Nodup) {r : String}
    (hr : r ∈ l) : l.filter (fun x => x == r) = [r] := by
  induction l with
  | nil => cases hr
  | cons x t ih =>
    rw [List.nodup_cons] at h
    rcases List.mem_cons.mp hr with rfl | hrt
    · rw [List.filter_cons_of_pos (by simp)]
      have ht : t.filter (fun y => y == r) = [] := by
        rw [List.filter_eq_nil_iff]
        intro y hy hb
        exact h.1 ((by simpa using hb : y = r) ▸ hy)
      rw [ht]
    · have hxr : x ≠ r := fun he => h.1 (he ▸ hrt)
      rw [List.filter_cons_of_neg (by simp [hxr])]
      exact ih h.2 hrt

theorem rn_block_eq {schema : Schema} {df : Table}
    (H1 : ∀ c ∈ schema.map Prod.fst, findCanon schema (colKey c) = some c)
    (H2 : List.Pairwise
      (fun e₁ e₂ => ∀ k ∈ keysOf e₁, k ∉ keysOf e₂) schema)
    (H3 : (schema.map Prod.fst).Nodup)
    {e : String × List String} (he : e ∈ schema) :
    (normalize_columns df schema).filter (fun c => c.name == e.1) =
      (df.filter (fun c => entryMatches e (colKey c.name))).map
        (fun c => (⟨e.1, c.values⟩ : Col)) := by
  induction df with
  | nil => rfl
  | cons c t ih =>
    simp only [normalize_columns, List.map_cons] at ih ⊢
    by_cases hm : entryMatches e (colKey c.name) = true
    · have hfc : findCanon schema (colKey c.name) = some e.1 :=
        findCanon_of_match H2 he hm
      have hname : renameName schema c.name = e.1 := renameName_of_some hfc
      simp [List.filter_cons, hname, hm]
      simpa using ih
    · cases hfc : findCanon schema (colKey c.name) with
      | some x =>
        have hne : x ≠ e.1 := by
          intro hxe
          obtain ⟨e2, he2, he21, hm2⟩ := findCanon_some_match hfc
          have he2e : e2 = e := entry_unique H3 he2 he (by rw [he21, hxe])
          rw [he2e] at hm2
          exact hm hm2
        have hname : renameName schema c.name = x := renameName_of_some hfc
        simp [List.filter_cons, hname, hne, hm]
        simpa using ih
      | none =>
        have hname : renameName schema c.name = c.name :=
          renameName_of_none hfc
        have hne : c.name ≠ e.1 := by
          intro hce
          have hmem : c.name ∈ schema.map Prod.fst := by
            rw [hce]
            exact List.mem_map_of_mem Prod.fst he
          have hcn := H1 c.name hmem
          rw [hfc] at hcn
          simp at hcn
        simp [List.filter_cons, hname, hne, hm]
        simpa using ih

theorem adds_block {req : List String} (H3 : req.Nodup) {r : String}
    (hr : r ∈ req) (p : String → Bool) (n : Nat) :
    (((req.filter p).map
        (fun x => (⟨x, List.replicate n none⟩ : Col))).filter
      (fun c => c.name == r)) =
      if p r = true then [(⟨r, List.replicate n none⟩ : Col)] else [] := by
  rw [map_filter_swap]
  have h1 : ∀ x ∈ req.filter p,
      ((⟨x, List.replicate n none⟩ : Col).name == r) = (x == r) :=
    fun x _ => rfl
  rw [List.filter_congr h1, List.filter_filter]
  by_cases hp : p r = true
  · rw [if_pos hp]
    have h2 : ∀ a ∈ req, ((a == r) && p a) = (a == r) := by
      intro a _
      by_cases har : a = r
      · rw [har, hp]
        simp
      · simp [har]
    rw [List.filter_congr h2, filter_beq_of_nodup H3 hr]
    rfl
  · rw [if_neg hp]
    have h2 : req.filter (fun a => (a == r) && p a) = [] := by
      rw [List.filter_eq_nil_iff]
      intro a _ hcond
      rw [Bool.and_eq_true] at hcond
      have har : a = r := by simpa using hcond.1
      rw [har] at hcond
      exact hp hcond.2
    rw [h2]
    rfl

theorem adds_cols_filter_nil (req : List String) (p : String → Bool)
    (n : Nat) :
    (((req.filter p).map
        (fun r => (⟨r, List.replicate n none⟩ : Col))).filter
      (fun c => !req.contains c.name)) = [] := by
  rw [List.filter_eq_nil_iff]
  intro x hx hq
  rw [List.mem_map] at hx
  obtain ⟨r, hr, hrx⟩ := hx
  rw [List.mem_filter] at hr
  have hxr : x.name = r := by rw [← hrx]
  rw [hxr, contains_iff_mem_str.mpr hr.1] at hq
  simp at hq

theorem normTable_split {schema : Schema} {df : Table}
    (H1 : ∀ c ∈ schema.map Prod.fst, findCanon schema (colKey c) = some c)
    (H3 : (schema.map Prod.fst).Nodup)
    (Hdup : ((df.map (·.name)).filter
      (fun n => (findCanon schema (colKey n)).isNone)).Nodup) :
    normTable df schema =
      selectCols
        (addMissing (normalize_columns df schema) (schema.map Prod.fst)
          (nrowsT (normalize_columns df schema)))
        (schema.map Prod.fst) ++
      (addMissing (normalize_columns df schema) (schema.map Prod.fst)
        (nrowsT (normalize_columns df schema))).filter
        (fun c => !(schema.map Prod.fst).contains c.name) := by
  have h_out : normTable df schema =
      selectCols
        (addMissing (normalize_columns df schema) (schema.map Prod.fst)
          (nrowsT (normalize_columns df schema)))
        ((schema.map Prod.fst) ++
          ((addMissing (normalize_columns df schema) (schema.map Prod.fst)
            (nrowsT (normalize_columns df schema))).map (·.name)).filter
            (fun n => !(schema.map Prod.fst).contains n)) := rfl
  rw [h_out, selectCols_append]
  congr 1
  have hNd : (((addMissing (normalize_columns df schema) (schema.map Prod.fst)
      (nrowsT (normalize_columns df schema))).map (·.name)).filter
      (fun n => !(schema.map Prod.fst).contains n)).Nodup := by
    rw [addMissing_eq _ _ _ H3, List.map_append, List.filter_append,
      adds_names_filter_nil, List.append_nil, normalize_columns_names,
      rename_names_filter H1]
    exact Hdup
  exact flatMap_filter_names hNd

theorem block_eq {schema : Schema} {df : Table}
    (H1 : ∀ c ∈ schema.map Prod.fst, findCanon schema (colKey c) = some c)
    (H2 : List.Pairwise
      (fun e₁ e₂ => ∀ k ∈ keysOf e₁, k ∉ keysOf e₂) schema)
    (H3 : (schema.map Prod.fst).Nodup)
    {e : String × List String} (he : e ∈ schema) :
    (addMissing (normalize_columns df schema) (schema.map Prod.fst)
        (nrowsT (normalize_columns df schema))).filter
      (fun c => c.name == e.1) =
      (if (df.filter (fun c => entryMatches e (colKey c.name))).isEmpty
        then [(⟨e.1, List.replicate (nrowsT df) none⟩ : Col)]
        else (df.filter (fun c => entryMatches e (colKey c.name))).map
          (fun c => (⟨e.1, c.values⟩ : Col))) := by
  rw [addMissing_eq _ _ _ H3, List.filter_append, rn_block_eq H1 H2 H3 he,
    adds_block H3 (List.mem_map_of_mem Prod.fst he), nrowsT_normalize]
  by_cases hms : df.filter (fun c => entryMatches e (colKey c.name)) = []
  · have hany : (normalize_columns df schema).any
        (fun c => c.name == e.1) = false := by
      rw [Bool.eq_false_iff]
      intro hany
      rw [List.any_eq_true] at hany
      obtain ⟨x, hx, hpx⟩ := hany
      have hxf : x ∈ (normalize_columns df schema).filter
          (fun c => c.name == e.1) := List.mem_filter.mpr ⟨hx, hpx⟩
      rw [rn_block_eq H1 H2 H3 he, hms] at hxf
      simp at hxf
    rw [hms, hany]
    simp
  · have hany : (normalize_columns df schema).any
        (fun c => c.name == e.1) = true := by
      obtain ⟨x, hx⟩ := List.exists_mem_of_ne_nil _ hms
      rw [List.any_eq_true]
      have hmm : (⟨e.1, x.values⟩ : Col) ∈
          (normalize_columns df schema).filter (fun c => c.name == e.1) := by
        rw [rn_block_eq H1 H2 H3 he]
        exact List.mem_map_of_mem _ hx
      rw [List.mem_filter] at hmm
      exact ⟨_, hmm.1, hmm.2⟩
    have hisE : (df.filter
        (fun c => entryMatches e (colKey c.name))).isEmpty = false := by
      cases hcc : df.filter (fun c => entryMatches e (colKey c.name)) with
      | nil => exact absurd hcc hms
      | cons a l => rfl
    rw [hany, hisE]
    simp

/-- Claim C6 counterexample is `c6_counterexample`; this is the amended
claim. C6 (amended): for every schema satisfying the data-model invariants
(distinct canonical names that are fixed points of the synonym lookup, with
pairwise-disjoint registered key sets) and every table whose unmatched
column names are pairwise distinct, normalization behaves exactly as the
specification describes: matched columns renamed and grouped in schema
order, absent canonicals added as all-null columns, unmatched columns
preserved afterwards in original order — and every canonical column name is
present in the output. -/
theorem c6_amended (schema : Schema) (df : Table)
    (H1 : ∀ c ∈ schema.map Prod.fst, findCanon schema (colKey c) = some c)
    (H2 : List.Pairwise
      (fun e₁ e₂ => ∀ k ∈ keysOf e₁, k ∉ keysOf e₂) schema)
    (H3 : (schema.map Prod.fst).Nodup)
    (Hdup : ((df.map (·.name)).filter
      (fun n => (findCanon schema (colKey n)).isNone)).Nodup) :
    normTable df schema = normalize_spec df schema ∧
      ∀ c ∈ schema.map Prod.fst, c ∈ (normTable df schema).map (·.name) := by
  have hspec : normalize_spec df schema =
      schema.flatMap (fun e =>
        if (df.filter (fun c => entryMatches e (colKey c.name))).isEmpty
        then [(⟨e.1, List.replicate (nrowsT df) none⟩ : Col)]
        else (df.filter (fun c => entryMatches e (colKey c.name))).map
          (fun c => (⟨e.1, c.values⟩ : Col))) ++
      df.filter
        (fun c => !schema.any (fun e => entryMatches e (colKey c.name))) := rfl
  have heq : normTable df schema = normalize_spec df schema := by
    rw [normTable_split H1 H3 Hdup, hspec]
    congr 1
    · show (schema.map Prod.fst).flatMap
          (fun n => (addMissing (normalize_columns df schema)
            (schema.map Prod.fst)
            (nrowsT (normalize_columns df schema))).filter
            (fun c => c.name == n)) = _
      rw [List.flatMap_map]
      apply List.flatMap_congr
      intro e he
      exact block_eq H1 H2 H3 he
    · rw [addMissing_eq _ _ _ H3, List.filter_append, adds_cols_filter_nil,
        List.append_nil, rn_leftover_cols H1]
      apply List.filter_congr
      intro c _
      exact findCanon_isNone_eq
  refine ⟨heq, ?_⟩
  intro cname hc
  rw [heq, hspec]
  rw [List.mem_map] at hc
  obtain ⟨e, he, he1⟩ := hc
  rw [List.mem_map]
  by_cases hms : df.filter (fun c => entryMatches e (colKey c.name)) = []
  · refine ⟨⟨e.1, List.replicate (nrowsT df) none⟩, ?_, he1⟩
    apply List.mem_append_left
    rw [List.mem_flatMap]
    refine ⟨e, he, ?_⟩
    rw [hms]
    simp
  · obtain ⟨x, hx⟩ := List.exists_mem_of_ne_nil _ hms
    refine ⟨⟨e.1, x.values⟩, ?_, he1⟩
    apply List.mem_append_left
    rw [List.mem_flatMap]
    refine ⟨e, he, ?_⟩
    have hisE : (df.filter
        (fun c => entryMatches e (colKey c.name))).isEmpty = false := by
      cases hcc : df.filter (fun c => entryMatches e (colKey c.name)) with
      | nil => exact absurd hcc hms
      | cons a l => rfl
    rw [hisE]
    simpa using
      List.mem_map_of_mem (fun c => (⟨e.1, c.values⟩ : Col)) hx

/-- Witness for C6 (amended) at the Portfolio schema and a table with two
matched columns and one unmatched column. -/
theorem c6_amended_witness :
    normTable dfWitness PORTFOLIO_COLUMNS =
        normalize_spec dfWitness PORTFOLIO_COLUMNS ∧
      ∀ c ∈ PORTFOLIO_COLUMNS.map Prod.fst,
        c ∈ (normTable dfWitness PORTFOLIO_COLUMNS).map (·.name) :=
  c6_amended PORTFOLIO_COLUMNS dfWitness (by decide) (by decide) (by decide)
    (by decide)
